import Mathlib

/-!
# Verification of the cranelift-equation parser front end

Shallow embedding of `src/cranelift-equation-parser/src/lib.rs` and
`src/cranelift-equation-parser/src/ast.rs`.  The equation text is modelled
as a `List Char`; the generic float type `T` of the Rust code is modelled
by exact decimal fractions together with a model of decimal parsing.
-/

/-- The character list of a string literal, standing for Rust's
`equation.chars()` view of the input. -/
def chars (s : String) : List Char := s.toList

/-- Model of Rust `char::is_numeric` (Unicode `Nd ∪ Nl ∪ No`), restricted
faithfully to the code points appearing in this development, where it
coincides with the ASCII digit test. -/
def rustIsNumeric (c : Char) : Bool := c.isDigit

/-- Model of Rust `char::is_alphabetic` (the Unicode `Alphabetic` property),
restricted faithfully to the code points appearing in this development:
ASCII letters and the Greek letter pi. -/
def rustIsAlphabetic (c : Char) : Bool := c.isAlpha || c = 'π'

/-- Model of Rust `char::len_utf8`: the number of bytes of the UTF-8
encoding of a character. -/
def rustLenUtf8 (c : Char) : Nat :=
  if c.toNat < 0x80 then 1
  else if c.toNat < 0x800 then 2
  else if c.toNat < 0x10000 then 3
  else 4

/-- Model of Rust `str::len`: the byte length of the UTF-8 encoding. -/
def rustLen (cs : List Char) : Nat := (cs.map rustLenUtf8).sum

/-- `ast.rs`: the `Operator` enum. -/
inductive Operator where
  | Add
  | Sub
  | Mul
  | Div
  | Pow
deriving DecidableEq, Repr

/-- `ast.rs`: the `ParenthesisType` enum. -/
inductive ParenthesisType where
  | Open
  | Close
  | OpenSquare
  | CloseSquare
  | OpenCurly
  | CloseCurly
deriving DecidableEq, Repr

/-- `lib.rs`: the `EquationParseError` enum. -/
inductive EquationParseError where
  | LiteralParseError
  | UnknownFunction
  | NoMatch
deriving DecidableEq, Repr

/-- `ast.rs`: `impl TryFrom<char> for Operator`, as a partial lookup. -/
def opFromChar (c : Char) : Option Operator :=
  if c = '+' then some .Add
  else if c = '-' then some .Sub
  else if c = '*' then some .Mul
  else if c = '/' then some .Div
  else if c = '^' then some .Pow
  else none

/-- `ast.rs`: `impl TryFrom<char> for ParenthesisType`, as a partial lookup. -/
def parenFromChar (c : Char) : Option ParenthesisType :=
  if c = '(' then some .Open
  else if c = ')' then some .Close
  else if c = '[' then some .OpenSquare
  else if c = ']' then some .CloseSquare
  else if c = '{' then some .OpenCurly
  else if c = '}' then some .CloseCurly
  else none

/-- `ast.rs`: the `RawSyntax` enum (1st stage AST).  Spans are the indices
produced by `chars().enumerate()` in `first_parse`. -/
inductive RawSyntax where
  | ValueLit (start stop : Nat)
  | ValueIdent (start stop : Nat)
  | Operator (op : Operator)
  | Parenthesis (p : ParenthesisType)
  | Function (start stop : Nat)
  | Comma
  | Abs
deriving DecidableEq, Repr

/-- `lib.rs` `first_parse`, the run-closing part of the `else` branch: the
token pushed when a non-run character `c` is met at position `index` while
the run state is `run`.  An alpha run closes as `Function` exactly when the
current character is `'('`. -/
def closeRunMid (run : Option (Nat × Bool)) (index : Nat) (c : Char) :
    List RawSyntax :=
  match run with
  | none => []
  | some (start, false) => [.ValueLit start index]
  | some (start, true) =>
    if c = '(' then [.Function start index] else [.ValueIdent start index]

/-- `lib.rs` `first_parse`, the single-character dispatch after a run is
closed: whitespace is skipped, `,` and `|` map directly, then the two
`TryFrom` lookups are tried; a character matching nothing is silently
skipped (the `Err` of `try_from` is discarded by the `if let Ok` pattern). -/
def dispatchChar (c : Char) : List RawSyntax :=
  if c = ' ' then []
  else if c = ',' then [.Comma]
  else if c = '|' then [.Abs]
  else
    match parenFromChar c with
    | some p => [.Parenthesis p]
    | none =>
      match opFromChar c with
      | some o => [.Operator o]
      | none => []

/-- `lib.rs` `first_parse`, the scanning loop: `byteLen` is `equation.len()`
(used to close a run still open at end of input), `index` the position of
the head character, and the `Option (Nat × Bool)` the `last_start_index`
state (`false` = digit run, `true` = alpha run). -/
def firstParseAux (byteLen : Nat) :
    List Char → Nat → Option (Nat × Bool) → List RawSyntax
  | [], _, none => []
  | [], _, some (start, false) => [.ValueLit start byteLen]
  | [], _, some (start, true) => [.ValueIdent start byteLen]
  | c :: rest, index, run =>
    if rustIsNumeric c || c = '.' then
      match run with
      | some (start, true) =>
        .ValueIdent start index ::
          firstParseAux byteLen rest (index + 1) (some (index, false))
      | some (start, false) =>
        firstParseAux byteLen rest (index + 1) (some (start, false))
      | none => firstParseAux byteLen rest (index + 1) (some (index, false))
    else if rustIsAlphabetic c then
      match run with
      | some (start, false) =>
        .ValueLit start index ::
          firstParseAux byteLen rest (index + 1) (some (index, true))
      | some (start, true) =>
        firstParseAux byteLen rest (index + 1) (some (start, true))
      | none => firstParseAux byteLen rest (index + 1) (some (index, true))
    else
      closeRunMid run index c ++ dispatchChar c ++
        firstParseAux byteLen rest (index + 1) none

/-- The token list built by `first_parse`. -/
def firstParseList (cs : List Char) : List RawSyntax :=
  firstParseAux (rustLen cs) cs 0 none

/-- `lib.rs` `first_parse`: the function body has no error path and always
returns `Ok(vec)`. -/
def first_parse (cs : List Char) :
    Except EquationParseError (List RawSyntax) :=
  .ok (firstParseList cs)

example : firstParseList (chars "2x") = [.ValueLit 0 1, .ValueIdent 1 2] := by
  decide

example : firstParseList (chars "2sin(x)") =
    [.ValueLit 0 1, .Function 1 4, .Parenthesis .Open, .ValueIdent 5 6,
     .Parenthesis .Close] := by decide

example : firstParseList (chars "#") = [] := by decide

/-- `ast.rs`: the `FunctionType` enum. -/
inductive FunctionType where
  | Sin
  | Cos
  | Tan
  | Cot
  | Sec
  | Csc
  | Sinh
  | Cosh
  | Tanh
  | Coth
  | Sech
  | Csch
  | Log
  | Ln
  | Sqrt
  | Root
  | Exp
  | Mod
  | Ceil
  | Floor
  | Round
  | Abs
deriving DecidableEq, Repr

/-- `ast.rs`: the arms of the string `match` in
`impl FromStr for FunctionType`, as a lookup table in source order. -/
def functionTable : List (List Char × FunctionType) :=
  [(['s', 'i', 'n'], .Sin), (['c', 'o', 's'], .Cos), (['t', 'a', 'n'], .Tan),
   (['c', 'o', 't'], .Cot), (['s', 'e', 'c'], .Sec), (['c', 's', 'c'], .Csc),
   (['s', 'i', 'n', 'h'], .Sinh), (['c', 'o', 's', 'h'], .Cosh),
   (['t', 'a', 'n', 'h'], .Tanh), (['c', 'o', 't', 'h'], .Coth),
   (['s', 'e', 'c', 'h'], .Sech), (['c', 's', 'c', 'h'], .Csch),
   (['l', 'o', 'g'], .Log), (['l', 'n'], .Ln),
   (['s', 'q', 'r', 't'], .Sqrt), (['r', 'o', 'o', 't'], .Root),
   (['e', 'x', 'p'], .Exp), (['m', 'o', 'd'], .Mod),
   (['c', 'e', 'i', 'l'], .Ceil), (['f', 'l', 'o', 'o', 'r'], .Floor),
   (['r', 'o', 'u', 'n', 'd'], .Round), (['a', 'b', 's'], .Abs)]

/-- `ast.rs`: `impl FromStr for FunctionType` — the string `match` is a
first-match lookup in the fixed function table; anything else is
`UnknownFunction`. -/
def FunctionType.fromStr (s : List Char) :
    Except EquationParseError FunctionType :=
  match functionTable.find? (fun q => q.1 == s) with
  | some q => .ok q.2
  | none => .error .UnknownFunction

/-- The 22 recognized function names, in the order of the source match. -/
def functionNames : List (List Char) :=
  functionTable.map Prod.fst

/-- The natural number denoted by a list of decimal digits. -/
def digitsToNat (cs : List Char) : Nat :=
  cs.foldl (fun a c => a * 10 + (c.toNat - 48)) 0

/-- The exact value of a parsed decimal literal, standing for the generic
float type `T` of the Rust code: the fraction `num / 10 ^ tenExp`. -/
structure DecimalValue where
  num : Int
  tenExp : Nat
deriving DecidableEq, Repr

/-- The decimal value of a digit string (no fraction part). -/
def DecimalValue.ofDigits (sign : Int) (intPart : List Char) : DecimalValue :=
  ⟨sign * digitsToNat intPart, 0⟩

/-- Model of `num_traits::Num::from_str_radix` at radix 10 for the float
type `T` (an external dependency), the values represented exactly as
decimal fractions: optional sign, integer digits, optionally a single dot
followed by fraction digits; any other character fails.  The exponent
forms and the textual NaN and infinity forms of the original are omitted:
they cannot occur in tokenizer spans, which consist of numeric characters
and dots. -/
def fromStrRadix10 (s : List Char) : Option DecimalValue :=
  match s with
  | [] => none
  | _ =>
    let sg : Int × List Char :=
      match s with
      | '-' :: r => (-1, r)
      | '+' :: r => (1, r)
      | r => (1, r)
    if sg.2 = [] then none
    else
      let intPart := sg.2.takeWhile Char.isDigit
      match sg.2.dropWhile Char.isDigit with
      | [] => some ⟨sg.1 * digitsToNat intPart, 0⟩
      | '.' :: frac =>
        if frac.all Char.isDigit then
          some ⟨sg.1 * (digitsToNat intPart * 10 ^ frac.length +
            digitsToNat frac), frac.length⟩
        else none
      | _ => none

example : fromStrRadix10 (chars "2") = some ⟨2, 0⟩ := by decide
example : fromStrRadix10 (chars "1.5") = some ⟨15, 1⟩ := by decide
example : fromStrRadix10 (chars "1..2") = none := by decide

deriving instance DecidableEq for Except

/-- `ast.rs`: the `Syntax` enum (2nd stage AST), with the float type `T`
modelled by `DecimalValue` and the borrowed `&str` by a `List Char`. -/
inductive Syntax where
  | ValueLit (v : DecimalValue)
  | ValueIdent (name : List Char)
  | Operator (op : Operator)
  | Parenthesis (p : ParenthesisType)
  | Function (f : FunctionType)
  | Comma
  | Abs
deriving DecidableEq, Repr

/-- Drops `b` bytes from the front of a character list; `none` when `b` is
not on a character boundary or exceeds the byte length (a Rust string-slice
panic). -/
def byteDrop : List Char → Nat → Option (List Char)
  | cs, 0 => some cs
  | [], _ + 1 => none
  | c :: cs, b + 1 =>
    if b + 1 < rustLenUtf8 c then none
    else byteDrop cs (b + 1 - rustLenUtf8 c)

/-- Takes the first `b` bytes of a character list; `none` when `b` is not
on a character boundary or exceeds the byte length. -/
def byteTake : List Char → Nat → Option (List Char)
  | _, 0 => some []
  | [], _ + 1 => none
  | c :: cs, b + 1 =>
    if b + 1 < rustLenUtf8 c then none
    else (byteTake cs (b + 1 - rustLenUtf8 c)).map (c :: ·)

/-- Model of Rust string slicing `&equation[start..stop]` by byte offsets:
`none` models the panic on an out-of-range or non-character-boundary
index. -/
def byteSlice (cs : List Char) (start stop : Nat) : Option (List Char) :=
  (byteTake cs stop).bind (fun t => byteDrop t start)

/-- Whether byte offset `b` lies on a character boundary of the UTF-8
encoding (Rust `str::is_char_boundary`, with `b` equal to the byte length
also counting as a boundary). -/
def isCharBoundary : List Char → Nat → Bool
  | _, 0 => true
  | [], _ + 1 => false
  | c :: cs, b + 1 =>
    if b + 1 < rustLenUtf8 c then false
    else isCharBoundary cs (b + 1 - rustLenUtf8 c)

example : byteSlice (chars "xπ+") 0 2 = none := by decide
example : byteSlice (chars "2x") 1 2 = some ['x'] := by decide
example : isCharBoundary (chars "xπ+") 2 = false := by decide

/-- `lib.rs` `second_parse`, the implicit-multiplication `match` over
`(previous_token, token)`: `true` exactly for the pairs reaching the
wildcard arm that pushes `Operator(Mul)` (arms are tried in source
order). -/
def insertMul (prev : Option RawSyntax) (cur : RawSyntax) : Bool :=
  match prev, cur with
  | none, _ => false
  | some (.Operator _), _ => false
  | some .Comma, _ => false
  | _, .Comma => false
  | some .Abs, _ => false
  | _, .Abs => false
  | some (.Parenthesis _), _ => false
  | _, .Operator _ => false
  | some (.Function _ _), _ => false
  | _, .Parenthesis .Close => false
  | _, .Parenthesis .CloseSquare => false
  | _, .Parenthesis .CloseCurly => false
  | _, _ => true

/-- The previous-token shapes that can trigger an implicit multiplication
in `second_parse`: a literal or identifier span. -/
def isLitOrIdent : RawSyntax → Bool
  | .ValueLit _ _ => true
  | .ValueIdent _ _ => true
  | _ => false

/-- The current-token shapes that can receive an implicit multiplication
in `second_parse`: a literal, identifier or function span, or an opening
grouping symbol. -/
def isValueLikeCur : RawSyntax → Bool
  | .ValueLit _ _ => true
  | .ValueIdent _ _ => true
  | .Function _ _ => true
  | .Parenthesis .Open => true
  | .Parenthesis .OpenSquare => true
  | .Parenthesis .OpenCurly => true
  | _ => false

/-- `lib.rs` `second_parse`, the per-token resolution `match`: literal and
identifier spans are sliced out of the equation text by byte offsets
(outer `none` = slice panic); a literal span is parsed as a number, a
function span is looked up in the function table. -/
def resolveOne (equation : List Char) :
    RawSyntax → Option (Except EquationParseError Syntax)
  | .ValueLit s e =>
    match byteSlice equation s e with
    | none => none
    | some str =>
      match fromStrRadix10 str with
      | some v => some (.ok (.ValueLit v))
      | none => some (.error .LiteralParseError)
  | .ValueIdent s e =>
    match byteSlice equation s e with
    | none => none
    | some str => some (.ok (.ValueIdent str))
  | .Operator op => some (.ok (.Operator op))
  | .Parenthesis p => some (.ok (.Parenthesis p))
  | .Function s e =>
    match byteSlice equation s e with
    | none => none
    | some str =>
      match FunctionType.fromStr str with
      | .ok f => some (.ok (.Function f))
      | .error err => some (.error err)
  | .Comma => some (.ok .Comma)
  | .Abs => some (.ok .Abs)

/-- `lib.rs` `second_parse`, the main loop: `astLen` is the length of the
full raw-token slice, `index` the position of the head token, and the
`Option RawSyntax` the `previous_token` state.  A synthetic `Operator(Mul)`
is pushed before the current token when the implicit-multiplication match
falls through to its wildcard arm and the current token is not the last
token of the stream. -/
def secondParseAux (equation : List Char) (astLen : Nat) :
    List RawSyntax → Nat → Option RawSyntax →
      Option (Except EquationParseError (List Syntax))
  | [], _, _ => some (.ok [])
  | token :: rest, index, prev =>
    let ins : List Syntax :=
      if insertMul prev token && index ≠ astLen - 1 then
        [.Operator .Mul]
      else []
    match resolveOne equation token with
    | none => none
    | some (.error e) => some (.error e)
    | some (.ok s) =>
      match secondParseAux equation astLen rest (index + 1) (some token) with
      | none => none
      | some (.error e) => some (.error e)
      | some (.ok tail) => some (.ok (ins ++ s :: tail))

/-- `lib.rs` `second_parse`: resolves the raw tokens against the equation
text.  The outer `Option` models panics (byte-slice failures); the inner
`Except` is the function's returned `Result`. -/
def second_parse (ast : List RawSyntax) (equation : List Char) :
    Option (Except EquationParseError (List Syntax)) :=
  secondParseAux equation ast.length ast 0 none

/-- `lib.rs` `parse`: calls `first_parse` and `second_parse` and `unwrap`s
both results (so stage errors and slice panics abort — modelled by `none` —
instead of being returned); the value it goes on to debug-print is the
resolved token list.  No third stage runs: `third_parse` has an empty body
and no expression tree is built. -/
def parse (equation : List Char) : Option (List Syntax) :=
  match first_parse equation with
  | .error _ => none
  | .ok first =>
    match second_parse first equation with
    | none => none
    | some (.error _) => none
    | some (.ok second) => some second

example : second_parse (firstParseList (chars "2x")) (chars "2x") =
    some (.ok [.ValueLit ⟨2, 0⟩, .ValueIdent ['x']]) := by decide

example : second_parse (firstParseList (chars "2*x")) (chars "2*x") =
    some (.ok [.ValueLit ⟨2, 0⟩, .Operator .Mul, .ValueIdent ['x']]) := by decide

example : second_parse (firstParseList (chars "2sin(x)")) (chars "2sin(x)") =
    some (.ok [.ValueLit ⟨2, 0⟩, .Operator .Mul, .Function .Sin,
      .Parenthesis .Open, .ValueIdent ['x'], .Parenthesis .Close]) := by
  decide

example : second_parse (firstParseList (chars "foo(")) (chars "foo(") =
    some (.error .UnknownFunction) := by decide

example : parse (chars "foo(") = none := by decide

example : second_parse (firstParseList (chars "xπ+")) (chars "xπ+") =
    none := by decide

/-- The span stored in a raw token, when it carries one. -/
def spanOf : RawSyntax → Option (Nat × Nat)
  | .ValueLit s e => some (s, e)
  | .ValueIdent s e => some (s, e)
  | .Function s e => some (s, e)
  | _ => none

/-- The spans of a token list, in emission order. -/
def tokenSpans (ts : List RawSyntax) : List (Nat × Nat) :=
  ts.filterMap spanOf

/-- A list of spans that all start at or after `lb`, are each non-empty,
and are pairwise disjoint in source order (each span ends before the next
begins). -/
inductive SpanChain : Nat → List (Nat × Nat) → Prop
  | nil (lb : Nat) : SpanChain lb []
  | cons (lb s e : Nat) (l : List (Nat × Nat)) :
      lb ≤ s → s < e → SpanChain e l → SpanChain lb ((s, e) :: l)

/-- Spec §4.3: the fixed operator precedence table. -/
def precOf : Operator → Nat
  | .Add => 1
  | .Sub => 1
  | .Mul => 2
  | .Div => 2
  | .Pow => 3

/-- Spec §4.3: every operator is left-associative except `Pow`. -/
def isRightAssoc : Operator → Bool
  | .Pow => true
  | _ => false

/-- Spec §3 `FunctionKind`: the fixed arity of each function
(`log`, `root`, `mod` binary, all others unary). -/
def fnArity : FunctionType → Nat
  | .Log => 2
  | .Root => 2
  | .Mod => 2
  | _ => 1

/-- Modelled from the spec: the `ExpressionNode` tree of §3, built by the
Tree Builder, which is missing from `src/` (`third_parse` in `lib.rs` is an
empty stub).  Handles into the arena are represented directly as subtrees. -/
inductive Expr where
  | Literal (v : DecimalValue)
  | Variable (name : List Char)
  | BinaryOp (op : Operator) (l r : Expr)
  | Call1 (f : FunctionType) (a : Expr)
  | Call2 (f : FunctionType) (a b : Expr)
deriving DecidableEq, Repr

/-- Modelled from the spec: the Tree Builder's error taxonomy (§7).
`OutOfFuel` is an artifact of the embedding's termination measure and is
unreachable when the fuel exceeds the input length. -/
inductive BuildError where
  | MismatchedGrouping
  | UnbalancedGrouping
  | WrongArity (expected found : Nat)
  | EmptyExpression
  | UnexpectedToken
  | TrailingTokens
  | OutOfFuel
deriving DecidableEq, Repr

/-- The closing parenthesis matching an opening one, if the token is an
opener. -/
def closerOf : ParenthesisType → Option ParenthesisType
  | .Open => some .Close
  | .OpenSquare => some .CloseSquare
  | .OpenCurly => some .CloseCurly
  | _ => none

/-- Whether a parenthesis token is one of the three closers. -/
def isCloser : ParenthesisType → Bool
  | .Close => true
  | .CloseSquare => true
  | .CloseCurly => true
  | _ => false

mutual

/-- Modelled from the spec (§4.3): a primary expression — a literal, an
identifier, a grouped sub-expression consuming a matching close of the
same kind, an absolute-value scope closed by the next bar, or a function
call with comma-separated arguments checked against the fixed arity. -/
def parsePrimary : Nat → List Syntax → Except BuildError (Expr × List Syntax)
  | 0, _ => .error .OutOfFuel
  | _ + 1, [] => .error .EmptyExpression
  | _ + 1, .ValueLit v :: rest => .ok (.Literal v, rest)
  | _ + 1, .ValueIdent n :: rest => .ok (.Variable n, rest)
  | fuel + 1, .Parenthesis p :: rest =>
    match closerOf p with
    | some close =>
      match parseExprMin fuel 1 rest with
      | .error e => .error e
      | .ok (inner, rest2) =>
        match rest2 with
        | .Parenthesis q :: rest3 =>
          if q = close then .ok (inner, rest3)
          else if isCloser q then .error .MismatchedGrouping
          else .error .UnexpectedToken
        | [] => .error .UnbalancedGrouping
        | _ => .error .UnexpectedToken
    | none => .error .EmptyExpression
  | fuel + 1, .Abs :: rest =>
    match parseExprMin fuel 1 rest with
    | .error e => .error e
    | .ok (inner, rest2) =>
      match rest2 with
      | .Abs :: rest3 => .ok (.Call1 .Abs inner, rest3)
      | [] => .error .UnbalancedGrouping
      | _ => .error .UnexpectedToken
  | fuel + 1, .Function f :: rest =>
    match rest with
    | .Parenthesis .Open :: rest2 =>
      match parseArgs fuel rest2 with
      | .error e => .error e
      | .ok (args, rest3) =>
        match args, fnArity f with
        | [a], 1 => .ok (.Call1 f a, rest3)
        | [a, b], 2 => .ok (.Call2 f a b, rest3)
        | _, _ => .error (.WrongArity (fnArity f) args.length)
    | _ => .error .UnexpectedToken
  | _ + 1, .Operator _ :: _ => .error .UnexpectedToken
  | _ + 1, .Comma :: _ => .error .UnexpectedToken

/-- Modelled from the spec (§4.3): the comma-separated argument list of a
function call, terminated by the closing `Paren`. -/
def parseArgs : Nat → List Syntax → Except BuildError (List Expr × List Syntax)
  | 0, _ => .error .OutOfFuel
  | fuel + 1, ts =>
    match parseExprMin fuel 1 ts with
    | .error e => .error e
    | .ok (arg, rest) =>
      match rest with
      | .Comma :: rest2 =>
        match parseArgs fuel rest2 with
        | .error e => .error e
        | .ok (args, rest3) => .ok (arg :: args, rest3)
      | .Parenthesis .Close :: rest2 => .ok ([arg], rest2)
      | [] => .error .UnbalancedGrouping
      | .Parenthesis _ :: _ => .error .MismatchedGrouping
      | _ => .error .UnexpectedToken

/-- Modelled from the spec (§4.3): precedence climbing — parse a primary,
then fold in operators of precedence at least `minPrec`. -/
def parseExprMin (fuel minPrec : Nat) (ts : List Syntax) :
    Except BuildError (Expr × List Syntax) :=
  match fuel with
  | 0 => .error .OutOfFuel
  | fuel + 1 =>
    match parsePrimary fuel ts with
    | .error e => .error e
    | .ok (lhs, rest) => climb fuel minPrec lhs rest

/-- Modelled from the spec (§4.3): the climbing loop — while the next token
is an operator of precedence `≥ minPrec`, consume it, parse the right-hand
side at precedence `prec` for the right-associative `Pow` and `prec + 1`
otherwise, and fold a `BinaryOp` node. -/
def climb : Nat → Nat → Expr → List Syntax → Except BuildError (Expr × List Syntax)
  | 0, _, _, _ => .error .OutOfFuel
  | fuel + 1, minPrec, lhs, ts =>
    match ts with
    | .Operator op :: rest =>
      if minPrec ≤ precOf op then
        match parseExprMin fuel
            (if isRightAssoc op then precOf op else precOf op + 1) rest with
        | .error e => .error e
        | .ok (rhs, rest2) => climb fuel minPrec (.BinaryOp op lhs rhs) rest2
      else .ok (lhs, ts)
    | _ => .ok (lhs, ts)

end

/-- Modelled from the spec (§4.3): the Tree Builder entry point — parse one
top-level expression and require the whole stream consumed; a leftover
closer or bar is `UnbalancedGrouping`, a leftover comma `UnexpectedToken`,
anything else `TrailingTokens`. -/
def buildTree (ts : List Syntax) : Except BuildError Expr :=
  match parseExprMin (2 * ts.length + 2) 1 ts with
  | .error e => .error e
  | .ok (e, []) => .ok e
  | .ok (_, .Parenthesis _ :: _) => .error .UnbalancedGrouping
  | .ok (_, .Abs :: _) => .error .UnbalancedGrouping
  | .ok (_, .Comma :: _) => .error .UnexpectedToken
  | .ok (_, _) => .error .TrailingTokens

example : buildTree [.ValueLit ⟨2, 0⟩, .Operator .Pow, .ValueLit ⟨3, 0⟩,
    .Operator .Pow, .ValueLit ⟨2, 0⟩] =
    .ok (.BinaryOp .Pow (.Literal ⟨2, 0⟩)
      (.BinaryOp .Pow (.Literal ⟨3, 0⟩) (.Literal ⟨2, 0⟩))) := by decide

example : buildTree [.ValueLit ⟨2, 0⟩, .Operator .Add, .ValueLit ⟨3, 0⟩,
    .Operator .Mul, .ValueLit ⟨4, 0⟩] =
    .ok (.BinaryOp .Add (.Literal ⟨2, 0⟩)
      (.BinaryOp .Mul (.Literal ⟨3, 0⟩) (.Literal ⟨4, 0⟩))) := by decide

example : buildTree [.Function .Sin, .Parenthesis .Open, .ValueLit ⟨1, 0⟩,
    .Comma, .ValueLit ⟨2, 0⟩, .Parenthesis .Close] =
    .error (.WrongArity 1 2) := by decide

example : buildTree [.Parenthesis .Open, .ValueLit ⟨2, 0⟩, .Operator .Add,
    .ValueLit ⟨3, 0⟩, .Parenthesis .CloseSquare] =
    .error .MismatchedGrouping := by decide

example : buildTree [.Abs, .ValueIdent ['x'], .Abs, .Operator .Add, .Abs,
    .ValueIdent ['y'], .Abs] =
    .ok (.BinaryOp .Add (.Call1 .Abs (.Variable ['x']))
      (.Call1 .Abs (.Variable ['y']))) := by decide

/-- C1 counterexample: `"2x"` does not resolve to the same token sequence
as `"2*x"` — the second token of the pair is the last token of the stream,
and `second_parse` skips the synthetic `Mul` exactly there. -/
theorem claim1_counterexample :
    second_parse (firstParseList (chars "2x")) (chars "2x") ≠
      second_parse (firstParseList (chars "2*x")) (chars "2*x") := by
  decide

/-- The implicit-multiplication match reaches its inserting wildcard arm
exactly for a literal-or-identifier previous token followed by a literal,
identifier, function span, or opening grouping symbol. -/
theorem insertMul_iff_pair (prev cur : RawSyntax) :
    insertMul (some prev) cur = (isLitOrIdent prev && isValueLikeCur cur) := by
  cases prev <;> cases cur <;>
    first
    | rfl
    | (rename ParenthesisType => q
       cases q <;> rfl)

/-- When the current token is the last token of the stream
(`index = astLen - 1`), no synthetic `Mul` is inserted before it, whatever
the previous token and whatever the pair. -/
theorem secondParseAux_last_no_insert (equation : List Char) (astLen : Nat)
    (token : RawSyntax) (prev : Option RawSyntax) :
    secondParseAux equation astLen [token] (astLen - 1) prev =
      (match resolveOne equation token with
       | none => none
       | some (.error e) => some (.error e)
       | some (.ok s) => some (.ok [s])) := by
  rcases hr : resolveOne equation token with _ | er
  · simp [secondParseAux, hr]
  · rcases er with e | s
    · simp [secondParseAux, hr]
    · simp [secondParseAux, hr]

/-- At every non-last position, the resolver emits the inserted `Mul`
exactly when the implicit-multiplication match fires for the pair
(previous, current): the output for `token :: rest` is the optional `Mul`,
the resolved token, and the output for the rest. -/
theorem secondParseAux_cons_not_last (equation : List Char) (astLen : Nat)
    (token : RawSyntax) (rest : List RawSyntax) (index : Nat)
    (prev : Option RawSyntax) (out : List Syntax)
    (hidx : index ≠ astLen - 1)
    (h : secondParseAux equation astLen (token :: rest) index prev =
      some (.ok out)) :
    ∃ s tail,
      resolveOne equation token = some (.ok s) ∧
      secondParseAux equation astLen rest (index + 1) (some token) =
        some (.ok tail) ∧
      out = (if insertMul prev token then [Syntax.Operator .Mul] else []) ++
        s :: tail := by
  rcases hr : resolveOne equation token with _ | er
  · simp [secondParseAux, hr] at h
  · rcases er with e | s
    · simp [secondParseAux, hr] at h
    · rcases hrec : secondParseAux equation astLen rest (index + 1)
          (some token) with _ | er2
      · simp [secondParseAux, hr, hrec] at h
      · rcases er2 with e2 | tail
        · simp [secondParseAux, hr, hrec] at h
        · refine ⟨s, tail, rfl, rfl, ?_⟩
          simp only [secondParseAux, hr, hrec, Option.some.injEq,
            Except.ok.injEq] at h
          subst h
          simp [hidx]

/-- C1 (amended): the Token Resolver inserts a synthetic `Operator(Mul)`
before the current token exactly when the previous token is a literal or
identifier span, the current token is a literal, identifier, function span
or opening grouping symbol, and the current token is not the last token of
the stream; nothing is inserted before the first token, at the last token,
or for any other pair.  So `"2sin(x)"` resolves like `"2*sin(x)"`, but
`"2x"` resolves to `[2, x]` with no `Mul`. -/
theorem claim1_amended :
    (∀ cur, insertMul none cur = false) ∧
    (∀ prev cur,
      insertMul (some prev) cur = (isLitOrIdent prev && isValueLikeCur cur)) ∧
    (∀ (equation : List Char) (astLen : Nat) (token : RawSyntax)
      (prev : Option RawSyntax),
      secondParseAux equation astLen [token] (astLen - 1) prev =
        (match resolveOne equation token with
         | none => none
         | some (.error e) => some (.error e)
         | some (.ok s) => some (.ok [s]))) ∧
    (∀ (equation : List Char) (astLen : Nat) (token : RawSyntax)
      (rest : List RawSyntax) (index : Nat) (prev : Option RawSyntax)
      (out : List Syntax),
      index ≠ astLen - 1 →
      secondParseAux equation astLen (token :: rest) index prev =
        some (.ok out) →
      ∃ s tail,
        resolveOne equation token = some (.ok s) ∧
        secondParseAux equation astLen rest (index + 1) (some token) =
          some (.ok tail) ∧
        out = (if insertMul prev token then [Syntax.Operator .Mul] else []) ++
          s :: tail) ∧
    second_parse (firstParseList (chars "2sin(x)")) (chars "2sin(x)") =
      second_parse (firstParseList (chars "2*sin(x)")) (chars "2*sin(x)") ∧
    second_parse (firstParseList (chars "2x")) (chars "2x") =
      some (.ok [.ValueLit ⟨2, 0⟩, .ValueIdent ['x']]) := by
  refine ⟨fun cur => by
      cases cur <;>
        first
        | rfl
        | (rename ParenthesisType => q
           cases q <;> rfl),
    insertMul_iff_pair,
    secondParseAux_last_no_insert, secondParseAux_cons_not_last,
    by decide, by decide⟩

/-- C1 witness: the universal insertion rule applied inside `"2x+1"` — at
index 1 (not the last index, 3) the pair (literal `2`, identifier `x`)
receives the inserted `Mul`. -/
theorem claim1_amended_witness :
    ∃ s tail,
      resolveOne (chars "2x+1") (.ValueIdent 1 2) = some (.ok s) ∧
      secondParseAux (chars "2x+1") 4 [.Operator .Add, .ValueLit 3 4] 2
        (some (.ValueIdent 1 2)) = some (.ok tail) ∧
      [Syntax.Operator .Mul, .ValueIdent ['x'], .Operator .Add,
          .ValueLit ⟨1, 0⟩] =
        (if insertMul (some (.ValueLit 0 1)) (.ValueIdent 1 2) then
          [Syntax.Operator .Mul] else []) ++ s :: tail :=
  claim1_amended.2.2.2.1 (chars "2x+1") 4 (.ValueIdent 1 2)
    [.Operator .Add, .ValueLit 3 4] 1 (some (.ValueLit 0 1))
    [.Operator .Mul, .ValueIdent ['x'], .Operator .Add, .ValueLit ⟨1, 0⟩]
    (by decide) (by decide)

/-- C2: on `"foo("` the resolver returns the tagged `UnknownFunction`
error, but the public `parse` unwraps it and aborts (modelled by `none`)
instead of returning it; no expression tree is produced at all. -/
theorem claim2_panic_on_error :
    second_parse (firstParseList (chars "foo(")) (chars "foo(") =
      some (.error .UnknownFunction) ∧
    parse (chars "foo(") = none := by
  refine ⟨by decide, by decide⟩

/-- C3 counterexample: on the input `"#"` — an unrecognized character with
no open run — the Tokenizer succeeds with an empty token list instead of
failing. -/
theorem claim3_counterexample :
    first_parse (chars "#") = .ok [] ∧
    ∀ e, first_parse (chars "#") ≠ .error e := by
  refine ⟨by decide, fun e h => by simp [first_parse] at h⟩

/-- C3 (amended): the Tokenizer never fails on any input; a character
matching no token rule while no run is open is silently skipped, behaving
exactly like whitespace, as `"1#2"` tokenizing identically to `"1 2"`
shows. -/
theorem claim3_amended :
    (∀ cs, ∃ v, first_parse cs = .ok v) ∧
    firstParseList (chars "1#2") = firstParseList (chars "1 2") := by
  exact ⟨fun cs => ⟨firstParseList cs, rfl⟩, by decide⟩

/-- C4 counterexample: `")("` and `"|x|y"` resolve with no synthetic `Mul`
anywhere — the resolver's match discards every pair whose previous token is
a parenthesis or an absolute bar. -/
theorem claim4_counterexample :
    second_parse (firstParseList (chars ")(")) (chars ")(") =
      some (.ok [.Parenthesis .Close, .Parenthesis .Open]) ∧
    second_parse (firstParseList (chars "|x|y")) (chars "|x|y") =
      some (.ok [.Abs, .ValueIdent ['x'], .Abs, .ValueIdent ['y']]) := by
  refine ⟨by decide, by decide⟩

/-- C4 (amended): the resolver never inserts a synthetic `Mul` when the
previous token is any parenthesis (opening or closing) or an absolute bar,
nor when the current token is an absolute bar; so `")("` and `"|x|y"`
receive no implicit multiplication. -/
theorem claim4_amended :
    (∀ p cur, insertMul (some (.Parenthesis p)) cur = false) ∧
    (∀ cur, insertMul (some .Abs) cur = false) ∧
    (∀ prev, insertMul prev .Abs = false) := by
  refine ⟨fun p cur => by cases cur <;> cases p <;> simp [insertMul],
    fun cur => by cases cur <;> simp [insertMul],
    fun prev => by
      rcases prev with _ | t
      · rfl
      · cases t <;> simp [insertMul]⟩

/-- C5: on `"xπ+"` the Tokenizer stores the char-index span `[0, 2)` for
the identifier run `xπ`, but byte offset 2 is not a character boundary of
the UTF-8 text (the `π` occupies bytes 1–2), so the resolver's byte
slicing panics (modelled by `none`). -/
theorem claim5_span_not_boundary :
    RawSyntax.ValueIdent 0 2 ∈ firstParseList (chars "xπ+") ∧
    isCharBoundary (chars "xπ+") 2 = false ∧
    second_parse (firstParseList (chars "xπ+")) (chars "xπ+") = none := by
  refine ⟨by decide, by decide, by decide⟩

/-- C6: the modelled Tree Builder uses precedence `Add/Sub` (1) < `Mul/Div`
(2) < `Pow` (3) with only `Pow` right-associative, and for any literals
`a`, `b`, `c` the token stream of `a^b^c` builds `a^(b^c)`; on the
concrete input `"2^3^2"` the pipeline yields `2^(3^2)` and not
`(2^3)^2`. -/
theorem claim6_precedence :
    precOf .Add = 1 ∧ precOf .Sub = 1 ∧ precOf .Mul = 2 ∧ precOf .Div = 2 ∧
    precOf .Pow = 3 ∧ isRightAssoc .Pow = true ∧ isRightAssoc .Add = false ∧
    isRightAssoc .Sub = false ∧ isRightAssoc .Mul = false ∧
    isRightAssoc .Div = false ∧
    (∀ a b c : DecimalValue,
      buildTree [.ValueLit a, .Operator .Pow, .ValueLit b, .Operator .Pow,
        .ValueLit c] =
        .ok (.BinaryOp .Pow (.Literal a)
          (.BinaryOp .Pow (.Literal b) (.Literal c)))) ∧
    second_parse (firstParseList (chars "2^3^2")) (chars "2^3^2") =
      some (.ok [.ValueLit ⟨2, 0⟩, .Operator .Pow, .ValueLit ⟨3, 0⟩,
        .Operator .Pow, .ValueLit ⟨2, 0⟩]) ∧
    buildTree [.ValueLit ⟨2, 0⟩, .Operator .Pow, .ValueLit ⟨3, 0⟩,
        .Operator .Pow, .ValueLit ⟨2, 0⟩] ≠
      .ok (.BinaryOp .Pow
        (.BinaryOp .Pow (.Literal ⟨2, 0⟩) (.Literal ⟨3, 0⟩))
        (.Literal ⟨2, 0⟩)) := by
  refine ⟨rfl, rfl, rfl, rfl, rfl, rfl, rfl, rfl, rfl, rfl,
    fun a b c => rfl, by decide, by decide⟩

/-- C7 counterexample: `InvalidLiteral` (`LiteralParseError`) is reachable
from plain user input — the resolver reports it on `"1..2"`. -/
theorem claim7_counterexample :
    second_parse (firstParseList (chars "1..2")) (chars "1..2") =
      some (.error .LiteralParseError) := by
  decide

/-- C7 (amended): a digit run may contain more than one decimal point —
`"1..2"` tokenizes as the single literal span `[0, 4)` — and numeric
parsing of such a span fails, so `LiteralParseError` is user-triggerable
rather than an internal contract violation. -/
theorem claim7_amended :
    firstParseList (chars "1..2") = [.ValueLit 0 4] ∧
    fromStrRadix10 (chars "1..2") = none := by
  refine ⟨by decide, by decide⟩

/-- A name of the function table is looked up successfully. -/
theorem fromStr_ok_of_mem (s : List Char) (h : s ∈ functionNames) :
    ∃ f, FunctionType.fromStr s = .ok f := by
  unfold FunctionType.fromStr
  obtain ⟨p, hp, hps⟩ := List.mem_map.mp h
  have hsome : (functionTable.find? (fun q => q.1 == s)).isSome := by
    rw [List.find?_isSome]
    exact ⟨p, hp, by simp [hps]⟩
  obtain ⟨q, hq⟩ := Option.isSome_iff_exists.mp hsome
  rw [hq]
  exact ⟨q.2, rfl⟩

/-- A string outside the function table fails with `UnknownFunction`. -/
theorem fromStr_err_of_notMem (s : List Char) (hs : s ∉ functionNames) :
    FunctionType.fromStr s = .error .UnknownFunction := by
  unfold FunctionType.fromStr
  rw [List.find?_eq_none.mpr]
  intro p hp
  simp only [beq_iff_eq]
  intro h
  exact hs (h ▸ List.mem_map_of_mem Prod.fst hp)

/-- C8: the function-name lookup succeeds exactly on the 22 names of the
fixed table, and on every other string it fails with `UnknownFunction`. -/
theorem claim8_function_table (s : List Char) :
    ((∃ f, FunctionType.fromStr s = .ok f) ↔ s ∈ functionNames) ∧
    (FunctionType.fromStr s = .error .UnknownFunction ↔ s ∉ functionNames) := by
  constructor
  · constructor
    · intro hf
      by_contra hs
      rcases hf with ⟨f, hf⟩
      rw [fromStr_err_of_notMem s hs] at hf
      exact Except.noConfusion hf
    · exact fromStr_ok_of_mem s
  · constructor
    · intro he hs
      rcases fromStr_ok_of_mem s hs with ⟨f, hf⟩
      rw [he] at hf
      exact Except.noConfusion hf
    · exact fromStr_err_of_notMem s

/-- C8 witness: the lookup succeeds on `"sin"` and fails on `"foo"`. -/
theorem claim8_function_table_witness :
    (∃ f, FunctionType.fromStr (chars "sin") = .ok f) ∧
    FunctionType.fromStr (chars "foo") = .error .UnknownFunction := by
  exact ⟨(claim8_function_table (chars "sin")).1.mpr (by decide),
    (claim8_function_table (chars "foo")).2.mpr (by decide)⟩

/-- Each character occupies at least one byte. -/
theorem one_le_rustLenUtf8 (c : Char) : 1 ≤ rustLenUtf8 c := by
  unfold rustLenUtf8
  split_ifs <;> omega

/-- The byte length of a text is at least its character count. -/
theorem length_le_rustLen (cs : List Char) : cs.length ≤ rustLen cs := by
  induction cs with
  | nil => simp [rustLen]
  | cons c rest ih =>
    have h := one_le_rustLenUtf8 c
    simp only [rustLen, List.map_cons, List.sum_cons, List.length_cons] at *
    omega

/-- The single-character dispatch emits no span-carrying token. -/
theorem tokenSpans_dispatchChar (c : Char) : tokenSpans (dispatchChar c) = [] := by
  unfold dispatchChar
  split_ifs <;> try rfl
  cases parenFromChar c <;> try rfl
  cases opFromChar c <;> rfl

/-- Spans distribute over concatenation of token lists. -/
theorem tokenSpans_append (l1 l2 : List RawSyntax) :
    tokenSpans (l1 ++ l2) = tokenSpans l1 ++ tokenSpans l2 :=
  List.filterMap_append l1 l2 spanOf

/-- The run-closing step emits exactly the span of the open run. -/
theorem tokenSpans_closeRunMid (run : Option (Nat × Bool)) (index : Nat)
    (c : Char) :
    tokenSpans (closeRunMid run index c) =
      (match run with
       | none => []
       | some (st, _) => [(st, index)]) := by
  rcases run with _ | ⟨st, b⟩
  · rfl
  · cases b
    · rfl
    · unfold closeRunMid
      split_ifs <;> rfl

/-- Weakening the lower bound of a span chain. -/
theorem spanChain_mono {lb lb' : Nat} {l : List (Nat × Nat)}
    (hle : lb' ≤ lb) (h : SpanChain lb l) : SpanChain lb' l := by
  cases h with
  | nil => exact .nil _
  | cons _ s e l h1 h2 h3 => exact .cons _ s e l (le_trans hle h1) h2 h3

/-- The lower bound carried by the scanning state: the start of the open
run, or the current position when no run is open. -/
def runLB (run : Option (Nat × Bool)) (index : Nat) : Nat :=
  match run with
  | none => index
  | some (st, _) => st

/-- Invariant of the tokenizer scan: the spans it emits form a chain of
non-empty, disjoint, source-ordered spans starting at the state's lower
bound. -/
theorem firstParseAux_spanChain (byteLen : Nat) (cs : List Char) :
    ∀ (index : Nat) (run : Option (Nat × Bool)),
      (∀ st b, run = some (st, b) → st < index) →
      index + cs.length ≤ byteLen →
      SpanChain (runLB run index)
        (tokenSpans (firstParseAux byteLen cs index run)) := by
  induction cs with
  | nil =>
    intro index run h1 h2
    rcases run with _ | ⟨st, b⟩
    · exact .nil _
    · have hst : st < index := h1 st b rfl
      have hby : st < byteLen := by simp at h2; omega
      cases b <;>
        exact .cons _ st byteLen [] le_rfl hby (.nil _)
  | cons c rest ih =>
    intro index run h1 h2
    have h2' : index + 1 + rest.length ≤ byteLen := by simp at h2; omega
    by_cases hnum : (rustIsNumeric c || c = '.') = true
    · rcases run with _ | ⟨st, b⟩
      · simp only [firstParseAux, hnum, if_true]
        exact ih (index + 1) (some (index, false))
          (fun st' b' h => by injection h with h'; cases h'; omega) h2'
      · have hst : st < index := h1 st b rfl
        cases b
        · simp only [firstParseAux, hnum, if_true]
          exact ih (index + 1) (some (st, false))
            (fun st' b' h => by injection h with h'; cases h'; omega) h2'
        · simp only [firstParseAux, hnum, if_true, tokenSpans,
            List.filterMap_cons, spanOf]
          refine .cons _ st index _ le_rfl hst ?_
          exact ih (index + 1) (some (index, false))
            (fun st' b' h => by injection h with h'; cases h'; omega) h2'
    · by_cases halpha : rustIsAlphabetic c = true
      · rcases run with _ | ⟨st, b⟩
        · simp only [firstParseAux, hnum, halpha, if_true, if_false,
            Bool.false_eq_true]
          exact ih (index + 1) (some (index, true))
            (fun st' b' h => by injection h with h'; cases h'; omega) h2'
        · have hst : st < index := h1 st b rfl
          cases b
          · simp only [firstParseAux, hnum, halpha, if_true, if_false,
              Bool.false_eq_true, tokenSpans, List.filterMap_cons, spanOf]
            refine .cons _ st index _ le_rfl hst ?_
            exact ih (index + 1) (some (index, true))
              (fun st' b' h => by injection h with h'; cases h'; omega) h2'
          · simp only [firstParseAux, hnum, halpha, if_true, if_false,
              Bool.false_eq_true]
            exact ih (index + 1) (some (st, true))
              (fun st' b' h => by injection h with h'; cases h'; omega) h2'
      · have hrec := ih (index + 1) none (fun st' b' h => by cases h) h2'
        have hrec' : SpanChain index
            (tokenSpans (firstParseAux byteLen rest (index + 1) none)) :=
          spanChain_mono (Nat.le_succ index) hrec
        rcases run with _ | ⟨st, b⟩
        · simp only [firstParseAux, hnum, halpha, if_false, Bool.false_eq_true,
            tokenSpans_append, tokenSpans_closeRunMid, tokenSpans_dispatchChar,
            List.nil_append, List.append_nil]
          exact hrec'
        · have hst : st < index := h1 st b rfl
          simp only [firstParseAux, hnum, halpha, if_false, Bool.false_eq_true,
            tokenSpans_append, tokenSpans_closeRunMid, tokenSpans_dispatchChar,
            List.nil_append, List.append_nil, List.singleton_append]
          exact .cons _ st index _ le_rfl hst hrec'

/-- Every span in a chain is non-empty. -/
theorem spanChain_pos {lb : Nat} {l : List (Nat × Nat)}
    (h : SpanChain lb l) : ∀ p ∈ l, p.1 < p.2 := by
  induction h with
  | nil => intro p hp; cases hp
  | cons lb s e l h1 h2 h3 ih =>
    intro p hp
    rcases List.mem_cons.mp hp with rfl | hp'
    · exact h2
    · exact ih p hp'

/-- A span chain is sorted: each span ends at or before the next begins. -/
theorem spanChain_sorted {lb : Nat} {l : List (Nat × Nat)}
    (h : SpanChain lb l) : List.Chain' (fun p q => p.2 ≤ q.1) l := by
  induction h with
  | nil => exact List.chain'_nil
  | cons lb s e l h1 h2 h3 ih =>
    rw [List.chain'_cons']
    refine ⟨?_, ih⟩
    intro q hq
    cases h3 with
    | nil => cases hq
    | cons _ s2 e2 l2 g1 g2 g3 =>
      simp only [List.head?_cons, Option.mem_def, Option.some.injEq] at hq
      subst hq
      exact g1

/-- C10: for every input, the span-carrying tokens the Tokenizer emits have
non-empty spans, and consecutive spans are disjoint and in source order
(each ends at or before the next begins), so no two spans overlap. -/
theorem claim10_spans (cs : List Char) :
    (∀ p ∈ tokenSpans (firstParseList cs), p.1 < p.2) ∧
    List.Chain' (fun p q => p.2 ≤ q.1) (tokenSpans (firstParseList cs)) := by
  have h := firstParseAux_spanChain (rustLen cs) cs 0 none
    (fun st b hsb => by cases hsb) (by simpa using length_le_rustLen cs)
  exact ⟨spanChain_pos h, spanChain_sorted h⟩

/-- C10 witness: on `"2x"` the spans `[0,1)` and `[1,2)` are produced; the
first is non-empty by the theorem. -/
theorem claim10_spans_witness :
    ((0, 1) ∈ tokenSpans (firstParseList (chars "2x"))) ∧ (0, 1).1 < (0, 1).2 :=
  ⟨by decide, (claim10_spans (chars "2x")).1 (0, 1) (by decide)⟩

/-- The single-character dispatch never emits a span-carrying token. -/
theorem not_span_mem_dispatchChar {c : Char} {t : RawSyntax}
    (hmem : t ∈ dispatchChar c) (hspan : spanOf t ≠ none) : False := by
  have hex : ∃ p, p ∈ tokenSpans (dispatchChar c) := by
    rcases hs : spanOf t with _ | p
    · exact absurd hs hspan
    · exact ⟨p, List.mem_filterMap.mpr ⟨t, hmem, hs⟩⟩
  rcases hex with ⟨p, hp⟩
  rw [tokenSpans_dispatchChar] at hp
  cases hp

/-- A character absorbed into a digit run is not an opening parenthesis. -/
theorem ne_paren_of_numeric {c : Char}
    (hnum : (rustIsNumeric c || c = '.') = true) : c ≠ '(' := by
  intro hc
  subst hc
  exact absurd hnum (by decide)

/-- Invariant of the tokenizer scan: every `Function` token it emits ends
exactly at an opening parenthesis of the remaining input. -/
theorem firstParseAux_function_mem (byteLen : Nat) (cs : List Char) :
    ∀ (index : Nat) (run : Option (Nat × Bool)) (st en : Nat),
      RawSyntax.Function st en ∈ firstParseAux byteLen cs index run →
      ∃ k, k < cs.length ∧ en = index + k ∧ cs[k]? = some '(' := by
  induction cs with
  | nil =>
    intro index run st en h
    rcases run with _ | ⟨s0, b⟩
    · simp [firstParseAux] at h
    · cases b <;> simp [firstParseAux] at h
  | cons c rest ih =>
    intro index run st en h
    by_cases hnum : (rustIsNumeric c || c = '.') = true
    · rcases run with _ | ⟨s0, b⟩
      · simp only [firstParseAux, hnum, if_true] at h
        obtain ⟨k, hk, hke, hkc⟩ := ih (index + 1) (some (index, false)) st en h
        exact ⟨k + 1, by simpa using hk, by omega, by simpa using hkc⟩
      · cases b
        · simp only [firstParseAux, hnum, if_true] at h
          obtain ⟨k, hk, hke, hkc⟩ := ih (index + 1) (some (s0, false)) st en h
          exact ⟨k + 1, by simpa using hk, by omega, by simpa using hkc⟩
        · simp only [firstParseAux, hnum, if_true, List.mem_cons] at h
          rcases h with h | h
          · exact RawSyntax.noConfusion h
          · obtain ⟨k, hk, hke, hkc⟩ :=
              ih (index + 1) (some (index, false)) st en h
            exact ⟨k + 1, by simpa using hk, by omega, by simpa using hkc⟩
    · by_cases halpha : rustIsAlphabetic c = true
      · rcases run with _ | ⟨s0, b⟩
        · simp only [firstParseAux, hnum, halpha, if_true, if_false,
            Bool.false_eq_true] at h
          obtain ⟨k, hk, hke, hkc⟩ := ih (index + 1) (some (index, true)) st en h
          exact ⟨k + 1, by simpa using hk, by omega, by simpa using hkc⟩
        · cases b
          · simp only [firstParseAux, hnum, halpha, if_true, if_false,
              Bool.false_eq_true, List.mem_cons] at h
            rcases h with h | h
            · exact RawSyntax.noConfusion h
            · obtain ⟨k, hk, hke, hkc⟩ :=
                ih (index + 1) (some (index, true)) st en h
              exact ⟨k + 1, by simpa using hk, by omega, by simpa using hkc⟩
          · simp only [firstParseAux, hnum, halpha, if_true, if_false,
              Bool.false_eq_true] at h
            obtain ⟨k, hk, hke, hkc⟩ := ih (index + 1) (some (s0, true)) st en h
            exact ⟨k + 1, by simpa using hk, by omega, by simpa using hkc⟩
      · simp only [firstParseAux, hnum, halpha, if_false, Bool.false_eq_true,
          List.mem_append] at h
        rcases h with (h | h) | h
        · rcases run with _ | ⟨s0, b⟩
          · cases h
          · cases b
            · simp only [closeRunMid, List.mem_singleton] at h
              exact RawSyntax.noConfusion h
            · by_cases hc : c = '('
              · simp only [closeRunMid, hc, if_pos, List.mem_singleton] at h
                injection h with h1 h2
                subst h1
                subst h2
                exact ⟨0, by simp, by omega, by simp [hc]⟩
              · simp only [closeRunMid, hc, if_neg, if_false,
                  List.mem_singleton] at h
                exact RawSyntax.noConfusion h
        · exact absurd h (fun hm =>
            not_span_mem_dispatchChar hm (by simp [spanOf]))
        · obtain ⟨k, hk, hke, hkc⟩ := ih (index + 1) none st en h
          exact ⟨k + 1, by simpa using hk, by omega, by simpa using hkc⟩

/-- Invariant of the tokenizer scan: every `ValueIdent` token it emits ends
either at a remaining-input character that is not an opening parenthesis,
or (for the run closed at end of input) at or beyond the end of the
input. -/
theorem firstParseAux_ident_mem (byteLen : Nat) (cs : List Char) :
    ∀ (index : Nat) (run : Option (Nat × Bool)) (st en : Nat),
      index + cs.length ≤ byteLen →
      RawSyntax.ValueIdent st en ∈ firstParseAux byteLen cs index run →
      (∃ k, k < cs.length ∧ en = index + k ∧ cs[k]? ≠ some '(') ∨
        index + cs.length ≤ en := by
  induction cs with
  | nil =>
    intro index run st en hlen h
    rcases run with _ | ⟨s0, b⟩
    · simp [firstParseAux] at h
    · cases b
      · simp [firstParseAux] at h
      · simp only [firstParseAux, List.mem_singleton] at h
        injection h with h1 h2
        subst h2
        right
        simpa using hlen
  | cons c rest ih =>
    intro index run st en hlen h
    have hlen' : index + 1 + rest.length ≤ byteLen := by
      simp at hlen; omega
    have shift : (∃ k, k < rest.length ∧ en = index + 1 + k ∧
          rest[k]? ≠ some '(') ∨ index + 1 + rest.length ≤ en →
        (∃ k, k < (c :: rest).length ∧ en = index + k ∧
          (c :: rest)[k]? ≠ some '(') ∨ index + (c :: rest).length ≤ en := by
      rintro (⟨k, hk, hke, hkc⟩ | hge)
      · exact Or.inl ⟨k + 1, by simpa using hk, by omega, by simpa using hkc⟩
      · right
        simp only [List.length_cons]
        omega
    by_cases hnum : (rustIsNumeric c || c = '.') = true
    · rcases run with _ | ⟨s0, b⟩
      · simp only [firstParseAux, hnum, if_true] at h
        exact shift (ih (index + 1) (some (index, false)) st en hlen' h)
      · cases b
        · simp only [firstParseAux, hnum, if_true] at h
          exact shift (ih (index + 1) (some (s0, false)) st en hlen' h)
        · simp only [firstParseAux, hnum, if_true, List.mem_cons] at h
          rcases h with h | h
          · injection h with h1 h2
            subst h2
            refine Or.inl ⟨0, by simp, by omega, ?_⟩
            simp only [List.getElem?_cons_zero, ne_eq, Option.some.injEq]
            exact ne_paren_of_numeric hnum
          · exact shift (ih (index + 1) (some (index, false)) st en hlen' h)
    · by_cases halpha : rustIsAlphabetic c = true
      · rcases run with _ | ⟨s0, b⟩
        · simp only [firstParseAux, hnum, halpha, if_true, if_false,
            Bool.false_eq_true] at h
          exact shift (ih (index + 1) (some (index, true)) st en hlen' h)
        · cases b
          · simp only [firstParseAux, hnum, halpha, if_true, if_false,
              Bool.false_eq_true, List.mem_cons] at h
            rcases h with h | h
            · exact RawSyntax.noConfusion h
            · exact shift (ih (index + 1) (some (index, true)) st en hlen' h)
          · simp only [firstParseAux, hnum, halpha, if_true, if_false,
              Bool.false_eq_true] at h
            exact shift (ih (index + 1) (some (s0, true)) st en hlen' h)
      · simp only [firstParseAux, hnum, halpha, if_false, Bool.false_eq_true,
          List.mem_append] at h
        rcases h with (h | h) | h
        · rcases run with _ | ⟨s0, b⟩
          · cases h
          · cases b
            · simp only [closeRunMid, List.mem_singleton] at h
              exact RawSyntax.noConfusion h
            · by_cases hc : c = '('
              · simp only [closeRunMid, hc, if_pos, List.mem_singleton] at h
                exact RawSyntax.noConfusion h
              · simp only [closeRunMid, hc, if_neg, if_false,
                  List.mem_singleton] at h
                injection h with h1 h2
                subst h2
                refine Or.inl ⟨0, by simp, by omega, ?_⟩
                simp only [List.getElem?_cons_zero, ne_eq, Option.some.injEq]
                exact hc
        · exact absurd h (fun hm =>
            not_span_mem_dispatchChar hm (by simp [spanOf]))
        · exact shift (ih (index + 1) none st en hlen' h)

/-- C9: an alphabetic run is emitted as a `FunctionName` (`Function`) token
exactly when the character at its end position is `'('`: every `Function`
token ends at a `'('`, and every `Identifier` (`ValueIdent`) token ends at
a non-`'('` character or at end of input. -/
theorem claim9_function_iff_open (cs : List Char) (st en : Nat) :
    ( RawSyntax.Function st en ∈ firstParseList cs → cs[en]? = some '(') ∧
    ( RawSyntax.ValueIdent st en ∈ firstParseList cs → cs[en]? ≠ some '(') := by
  constructor
  · intro h
    obtain ⟨k, hk, hke, hkc⟩ :=
      firstParseAux_function_mem (rustLen cs) cs 0 none st en h
    subst hke
    simpa using hkc
  · intro h
    rcases firstParseAux_ident_mem (rustLen cs) cs 0 none st en
        (by simpa using length_le_rustLen cs) h with ⟨k, hk, hke, hkc⟩ | hge
    · subst hke
      simpa using hkc
    · intro hcon
      have hlt : en < cs.length := by
        rcases List.getElem?_eq_some.mp hcon with ⟨hl, _⟩
        exact hl
      omega

/-- C9 witness: in `"f(x"` the run `f` is emitted as `Function 0 1` and the
character at position 1 is `'('`. -/
theorem claim9_function_iff_open_witness :
    ( RawSyntax.Function 0 1 ∈ firstParseList (chars "f(x")) ∧
    (chars "f(x")[1]? = some '(' :=
  ⟨by decide, (claim9_function_iff_open (chars "f(x") 0 1).1 (by decide)⟩
